import Mathlib

/-!
Verification of the kvf library (a Vulkan convenience layer) against its
natural-language specification.  We shallowly embed the relevant parts of
`src/lib/src/kvf.cpp`, `src/lib/src/ttf.cpp` and the public headers as
executable Lean definitions, and prove the specification's claims about
them.  Machine integers are modelled as `Nat`/`Int` with explicit wrapping
where the C++ semantics requires it; calls into the Vulkan driver are
modelled as oracles (their results are inputs of the embedded functions).
-/

namespace Kvf

/-! ## Vulkan result codes

`vk::Result` as far as the embedded code inspects it.  `otherError` stands
for every result value other than the ones the code matches on explicitly
(the `default:` branch of the C++ switches). -/

inductive VkResult where
  | success
  | suboptimalKHR
  | errorOutOfDateKHR
  | errorOutOfPoolMemory
  | otherError
deriving DecidableEq, Repr

/-! ## Color (src/lib/include/kvf/color.hpp)

`Color` derives from `glm::tvec4<std::uint8_t>`: four byte channels
x, y, z, w.  We model a color as four `Nat` fields; the theorems carry the
`< 256` bounds that `std::uint8_t` guarantees. -/

structure Color where
  x : Nat
  y : Nat
  z : Nat
  w : Nat
deriving DecidableEq, Repr

namespace Color

/-- `static constexpr auto red(mask)  { return uint8_t((mask >> (3*8)) & 0xff); }` -/
def red (mask : Nat) : Nat := (mask >>> (3 * 8)) &&& 0xff

/-- `static constexpr auto green(mask) { return uint8_t((mask >> (2*8)) & 0xff); }` -/
def green (mask : Nat) : Nat := (mask >>> (2 * 8)) &&& 0xff

/-- `static constexpr auto blue(mask) { return uint8_t((mask >> (1*8)) & 0xff); }` -/
def blue (mask : Nat) : Nat := (mask >>> (1 * 8)) &&& 0xff

/-- `static constexpr auto alpha(mask) { return uint8_t((mask >> (0*8)) & 0xff); }` -/
def alpha (mask : Nat) : Nat := (mask >>> (0 * 8)) &&& 0xff

/-- `explicit constexpr Color(uint32_t mask) : GlmColor(red(mask), green(mask), blue(mask), alpha(mask))` -/
def ofMask (mask : Nat) : Color :=
  { x := red mask, y := green mask, z := blue mask, w := alpha mask }

/-- `constexpr auto to_u32() const { return (u32(x) << 24) | (u32(y) << 16) | (u32(z) << 8) | u32(w); }` -/
def to_u32 (c : Color) : Nat :=
  (c.x <<< (3 * 8)) ||| (c.y <<< (2 * 8)) ||| (c.z <<< 8) ||| c.w

end Color

/-! ## Glyph slot (src/lib/include/kvf/ttf.hpp, `Slot::operator[]`)

`glm::ivec2` is a pair of C++ `int`s, modelled as a pair of `Int`s.
`Slot::alpha_channels` is a `std::span<std::byte const>`, modelled as a
list of byte values. -/

structure Ivec2 where
  x : Int
  y : Int
deriving DecidableEq, Repr

instance : Add Ivec2 := ⟨fun a b => ⟨a.x + b.x, a.y + b.y⟩⟩

/-- The C++ conversion `std::size_t(i)` of a (possibly negative) `int i`:
reduction modulo 2^64. -/
def toSizeT (i : Int) : Nat := (i % (2 ^ 64 : Nat)).toNat

structure Slot where
  size : Ivec2
  alpha_channels : List Nat
deriving Repr

namespace Slot

/-- `constexpr auto operator[](int x, int y) const -> std::byte`:
`index = size_t((y * size.x) + x); if (index >= alpha_channels.size()) return {}; return alpha_channels[index];` -/
def get (s : Slot) (x y : Int) : Nat :=
  let index := toSizeT ((y * s.size.x) + x)
  if index ≥ s.alpha_channels.length then 0 else s.alpha_channels.getD index 0

end Slot

/-! ## Resource buffering (src/lib/include/kvf/constants.hpp)

`resource_buffering_v` equals the build-time macro `KVF_RESOURCE_BUFFERING`;
the only constraint the code places on it is
`static_assert(resource_buffering_v >= 2 && resource_buffering_v <= 8)`. -/

/-- The predicate checked by
`static_assert(resource_buffering_v >= 2 && resource_buffering_v <= 8)`:
the set of buffering values the code accepts. -/
def bufferingAssert (b : Nat) : Bool := decide (b ≥ 2) && decide (b ≤ 8)

/-! ## Swapchain acquire / present (src/lib/src/kvf.cpp, `struct Swapchain`) -/

/-- The `Swapchain` state the acquire/present cycle manipulates:
`std::optional<std::uint32_t> m_image_index`. -/
structure SwapState where
  imageIndex : Option Nat
deriving DecidableEq, Repr

namespace Swapchain

/-- `Swapchain::acquire_next_image(vk::Semaphore)`: if an image index is
already held, return `true` at once; otherwise call
`acquireNextImageKHR` (its result and the produced index are oracle
inputs `res` and `newIndex`) and switch on the result. -/
def acquire_next_image (res : VkResult) (newIndex : Nat) (s : SwapState) :
    SwapState × Except String Bool :=
  if s.imageIndex.isSome then (s, .ok true)
  else
    match res with
    | .errorOutOfDateKHR => (s, .ok false)
    | .suboptimalKHR => ({ imageIndex := some newIndex }, .ok true)
    | .success => ({ imageIndex := some newIndex }, .ok true)
    | _ => (s, .error "Failed to acquire Swapchain Image")

/-- `Swapchain::present(vk::Queue)`: submits the present request (its
result is the oracle input `res`), clears `m_image_index` before
switching on the result, then returns/throws per the result. -/
def present (res : VkResult) (_s : SwapState) : SwapState × Except String Bool :=
  let s' : SwapState := { imageIndex := none }
  match res with
  | .errorOutOfDateKHR => (s', .ok false)
  | .suboptimalKHR => (s', .ok true)
  | .success => (s', .ok true)
  | _ => (s', .error "Failed to present Swapchain Image")

/-- `min_images_v = KVF_RESOURCE_BUFFERING + 1`, parameterized over the
buffering macro. -/
def min_images_v (buffering : Nat) : Nat := buffering + 1

/-- Surface capabilities fields inspected by `get_image_count` /
`get_image_extent` (all `std::uint32_t`). -/
structure SurfaceCaps where
  minImageCount : Nat
  maxImageCount : Nat
  currentExtentW : Nat
  currentExtentH : Nat
  minImageExtentW : Nat
  minImageExtentH : Nat
  maxImageExtentW : Nat
  maxImageExtentH : Nat
deriving Repr

/-- `std::clamp(v, lo, hi)` (defined for `lo <= hi`): `v < lo ? lo : hi < v ? hi : v`. -/
def stdClamp (v lo hi : Nat) : Nat := if v < lo then lo else if hi < v then hi else v

/-- `Swapchain::get_image_count(caps)`:
`if (caps.maxImageCount < caps.minImageCount) return max(min_images_v, caps.minImageCount);`
`return clamp(min_images_v, caps.minImageCount, caps.maxImageCount);` -/
def get_image_count (buffering : Nat) (caps : SurfaceCaps) : Nat :=
  if caps.maxImageCount < caps.minImageCount then
    max (min_images_v buffering) caps.minImageCount
  else
    stdClamp (min_images_v buffering) caps.minImageCount caps.maxImageCount

/-- `std::numeric_limits<std::uint32_t>::max()`. -/
def limitless_v : Nat := 2 ^ 32 - 1

/-- `Swapchain::get_image_extent(caps, framebuffer)`:
return `caps.currentExtent` when both of its dimensions are below the
`uint32` maximum, else the framebuffer extent clamped per-axis into
`[minImageExtent, maxImageExtent]`. -/
def get_image_extent (caps : SurfaceCaps) (fbW fbH : Nat) : Nat × Nat :=
  if caps.currentExtentW < limitless_v ∧ caps.currentExtentH < limitless_v then
    (caps.currentExtentW, caps.currentExtentH)
  else
    (stdClamp fbW caps.minImageExtentW caps.maxImageExtentW,
     stdClamp fbH caps.minImageExtentH caps.maxImageExtentH)

end Swapchain

/-! ## Descriptor allocator (src/lib/src/kvf.cpp, `struct DescriptorAllocator`) -/

/-- Mutable state of `DescriptorAllocator`: the vector of pools
(`m_pools`, each pool represented by the number of times it has been
reset) and the current pool index `m_index`. -/
structure DescAllocState where
  pools : List Nat
  index : Nat
deriving DecidableEq, Repr

namespace DescriptorAllocator

/-- `void reset()`: `for (auto& pool : m_pools) device.resetDescriptorPool(*pool); m_index = 0;` -/
def reset (s : DescAllocState) : DescAllocState :=
  { pools := s.pools.map (· + 1), index := 0 }

/-- `get_pool()`: `while (m_index >= m_pools.size()) m_pools.push_back(createDescriptorPool());`
New pools start with a reset count of 0. -/
def ensurePool (s : DescAllocState) : DescAllocState :=
  { s with pools := s.pools ++ List.replicate (s.index + 1 - s.pools.length) 0 }

/-- `auto allocate(out_sets, layouts) -> bool`.  The results of the two
possible `try_allocate` device calls are the oracle inputs `r1` and
`r2`.  Returns the new state and the boolean result. -/
def allocate (r1 r2 : VkResult) (outSetsSize layoutsSize : Nat)
    (s : DescAllocState) : DescAllocState × Bool :=
  if layoutsSize = 0 ∨ outSetsSize ≠ layoutsSize then (s, false)
  else
    let s1 := ensurePool s
    match r1 with
    | .success => (s1, true)
    | .errorOutOfPoolMemory =>
        let s2 := ensurePool { s1 with index := s1.index + 1 }
        (s2, decide (r2 = .success))
    | _ => (s1, false)

end DescriptorAllocator

/-! ## RenderDevice frame cycle (src/lib/src/kvf.cpp, `RenderDevice::Impl`) -/

/-- The per-frame bookkeeping of `RenderDevice::Impl` that `next_frame`
touches.  Allocator resets and command-buffer begins are modelled by
per-slot counters so that "was reset / was re-begun" is observable. -/
structure FrameState where
  frameIndex : Nat
  descResets : List Nat
  bufResets : List Nat
  cmdBegins : List Nat
  currentCmd : Option Nat
deriving DecidableEq, Repr

/-- Bump the counter at position `i` of `l`. -/
def bumpAt (l : List Nat) (i : Nat) : List Nat := l.set i (l.getD i 0 + 1)

namespace RenderDevice

/-- `RenderDevice::Impl::next_frame()`: wait on the current slot's
`drawn` fence (the result is the oracle input `waitOk`; on failure
`throw Error{"Failed to wait for Render Fence"}` leaves the state
untouched), then reset the slot's descriptor allocator and scratch
buffer allocator, re-begin the slot's command buffer and return it. -/
def next_frame (waitOk : Bool) (s : FrameState) : FrameState × Except String Nat :=
  if ¬waitOk then (s, .error "Failed to wait for Render Fence")
  else
    ({ s with
        descResets := bumpAt s.descResets s.frameIndex
        bufResets := bumpAt s.bufResets s.frameIndex
        cmdBegins := bumpAt s.cmdBegins s.frameIndex
        currentCmd := some s.frameIndex },
     .ok s.frameIndex)

/-- Per-call oracle inputs of `RenderDevice::Impl::render`: the
framebuffer extent, the render-fence wait result, and the Vulkan results
of the acquire and present calls. -/
structure RenderEnv where
  fbWidth : Nat
  fbHeight : Nat
  waitOk : Bool
  acquireRes : VkResult
  acquireIndex : Nat
  presentRes : VkResult
deriving Repr

/-- How a call to `render` finished. -/
inductive RenderOutcome where
  /-- Early return: `m_current_cmd == nullptr`. -/
  | noCmd
  /-- Early return: zero-sized framebuffer. -/
  | zeroExtent
  /-- Early return: image acquisition failed (swapchain out of date). -/
  | outOfDate
  /-- An exception propagated (fence wait / acquire / present failure). -/
  | errorThrown
  /-- The command buffer was submitted and the image presented. -/
  | submitted
deriving DecidableEq, Repr

/-- The state of `RenderDevice::Impl` that `render` manipulates. -/
structure RenderState where
  frameIndex : Nat
  currentCmd : Option Nat
  swap : SwapState
deriving DecidableEq, Repr

/-- `RenderDevice::Impl::render(frame, filter)` with
`resource_buffering_v = B`.  Mirrors the control flow of the source:
early returns for a missing command buffer, a zero-sized framebuffer and
a failed acquisition; exceptions from the fence wait, the acquire call
and the present call; on the full path the frame index advances by
`m_frame_index = (m_frame_index + 1) % resource_buffering_v` and
`m_current_cmd` is cleared. -/
def render (B : Nat) (env : RenderEnv) (s : RenderState) : RenderState × RenderOutcome :=
  if s.currentCmd.isNone then (s, .noCmd)
  else if env.fbWidth = 0 ∨ env.fbHeight = 0 then (s, .zeroExtent)
  else if ¬env.waitOk then (s, .errorThrown)
  else
    match Swapchain.acquire_next_image env.acquireRes env.acquireIndex s.swap with
    | (_, .error _) => (s, .errorThrown)
    | (_, .ok false) =>
        ({ s with swap := { imageIndex := none }, currentCmd := none }, .outOfDate)
    | (swap1, .ok true) =>
        match Swapchain.present env.presentRes swap1 with
        | (swap2, .error _) => ({ s with swap := swap2 }, .errorThrown)
        | (swap2, .ok _) =>
            ({ frameIndex := (s.frameIndex + 1) % B
               currentCmd := none
               swap := swap2 }, .submitted)

/-- The frame index after `n` successfully submitted frames, starting
from index `i`: each submission applies `(· + 1) % B` (the update in
`render`). -/
def frameAfter (B i : Nat) : Nat → Nat
  | 0 => i
  | n + 1 => (frameAfter B i n + 1) % B

end RenderDevice

/-! ## Font-atlas packer (src/lib/src/ttf.cpp, `struct BuildAtlas`)

The packer consumes the list `m_entries` built by `load_entries`; each
entry carries the glyph `Slot` loaded for a codepoint (a failed
`load_slot` leaves the default slot with size 0 and no alpha bytes).
`entry.alpha.count` of the source equals `slot.alpha_channels.size()`,
so the `Slot` structure above is exactly the per-entry input. -/

namespace Ttf

/-- An axis-aligned integer rectangle, `Rect<int>` of kvf/rect.hpp:
left-top and right-bottom corner (`rb` exclusive as the packer uses it:
`rb = lt + slot.size`). -/
structure RectI where
  lt : Ivec2
  rb : Ivec2
deriving DecidableEq, Repr

instance : Inhabited RectI := ⟨⟨⟨0, 0⟩, ⟨0, 0⟩⟩⟩

/-- Membership of an integer pixel in the (half-open) rectangle. -/
def RectI.memP (r : RectI) (p : Ivec2) : Prop :=
  r.lt.x ≤ p.x ∧ p.x < r.rb.x ∧ r.lt.y ≤ p.y ∧ p.y < r.rb.y

/-- Two packed rectangles share no pixel. -/
def RectI.disjoint (r₁ r₂ : RectI) : Prop := ∀ p : Ivec2, ¬(r₁.memP p ∧ r₂.memP p)

/-- `INT_MAX`, the bound tested by `pot`'s loop guard. -/
def intMax : Int := 2 ^ 31 - 1

/-- The loop of `pot`: `while (ret < in && ret < INT_MAX) { ret <<= 1; }`,
with explicit fuel.  Starting from `ret = 1` the guard stops after at
most 31 doublings, so fuel 40 is never exhausted. -/
def potLoop (inp : Int) : Nat → Int → Int
  | 0, ret => ret
  | fuel + 1, ret => if ret < inp ∧ ret < intMax then potLoop inp fuel (2 * ret) else ret

/-- `constexpr auto pot(int in) { auto ret = 1; while (ret < in && ret < INT_MAX) ret <<= 1; return ret; }` -/
def pot (inp : Int) : Int := potLoop inp 40 1

/-- Helper for `ceilSqrt`: the least `c' ≥ c` with `n ≤ c' * c'`, by
fuel-bounded linear search (fuel `n` starting from 0 always suffices
because `n ≤ n * n`). -/
def ceilSqrtFrom (n : Nat) : Nat → Nat → Nat
  | 0, c => c
  | fuel + 1, c => if n ≤ c * c then c else ceilSqrtFrom n fuel (c + 1)

/-- `int(std::ceil(std::sqrt(double(count))))` — the column count of
`load_entries`: the least `c` with `c * c ≥ n`.  The double-precision
square root of the source is correctly rounded, so for every realistic
list size this is the exact value. -/
def ceilSqrt (n : Nat) : Nat := ceilSqrtFrom n n 0

/-- `m_max_glyph_width` after `load_entries`: the running
`std::max(m_max_glyph_width, slot.size.x)` over the loaded entries
(initialised to 0; entries whose load failed keep the default slot of
width 0, so folding over all entries is the same value). -/
def maxGlyphWidth (entries : List Slot) : Int :=
  entries.foldl (fun m e => max m e.size.x) 0

/-- `m_atlas_size.x = pot(((m_max_glyph_width + m_pad.x) * columns) + m_pad.x)`
computed at the end of `load_entries`. -/
def atlasWidth (pad : Ivec2) (entries : List Slot) : Int :=
  pot ((maxGlyphWidth entries + pad.x) * (ceilSqrt entries.length : Int) + pad.x)

/-- An entry after `store_pixels` placed it: the slot, the integer pixel
rectangle recorded in `entry.uv_rect`, and the block of pixels the entry
pushed onto `m_pixels` (the source's single `m_pixels` vector is the
concatenation of these blocks, in entry order). -/
structure PackedEntry where
  slot : Slot
  rect : RectI
  pixels : List (Ivec2 × Nat)
deriving Repr

/-- The alpha byte count of the entry (`entry.alpha.count`). -/
def PackedEntry.count (pe : PackedEntry) : Nat := pe.slot.alpha_channels.length

/-- The mutable state of `store_pixels`: `m_cursor`, `m_line_height` and
the entries placed so far. -/
structure PackState where
  cursor : Ivec2
  lineHeight : Int
  packed : List PackedEntry
deriving Repr

/-- The pixel block one entry pushes:
`for y in [0, size.y) for x in [0, size.x): push {alpha = slot[x, y], coords = cursor + (x, y)}`. -/
def pixelsFor (e : Slot) (c : Ivec2) : List (Ivec2 × Nat) :=
  (List.range e.size.y.toNat).flatMap fun (y : Nat) =>
    (List.range e.size.x.toNat).map fun (x : Nat) =>
      (⟨c.x + (x : Int), c.y + (y : Int)⟩, e.get (x : Int) (y : Int))

/-- `void next_line() { m_cursor.x = m_pad.x; m_cursor.y += m_line_height + m_pad.y; m_line_height = 0; }` -/
def nextLine (pad : Ivec2) (st : PackState) : PackState :=
  { st with cursor := ⟨pad.x, st.cursor.y + st.lineHeight + pad.y⟩, lineHeight := 0 }

/-- The placement step of the `store_pixels` loop body after the
possible line wrap: `entry.uv_rect.lt = m_cursor; entry.uv_rect.rb =
m_cursor + entry.slot.size; m_line_height = max(m_line_height,
entry.slot.size.y);` push the pixel block; `m_cursor.x +=
entry.slot.size.x + m_pad.x;`. -/
def placeAt (pad : Ivec2) (st1 : PackState) (e : Slot) : PackState :=
  { cursor := ⟨st1.cursor.x + e.size.x + pad.x, st1.cursor.y⟩
    lineHeight := max st1.lineHeight e.size.y
    packed := st1.packed ++ [⟨e, ⟨st1.cursor, st1.cursor + e.size⟩, pixelsFor e st1.cursor⟩] }

/-- The body of the `store_pixels` loop for one entry: skip entries with
no alpha bytes (their `uv_rect` stays default); otherwise wrap to the
next line when the entry would overflow the atlas width
(`if (m_cursor.x + entry.slot.size.x + m_pad.x > m_atlas_size.x) next_line();`),
then place. -/
def placeOne (atlasW : Int) (pad : Ivec2) (st : PackState) (e : Slot) : PackState :=
  if e.alpha_channels.length = 0 then
    { st with packed := st.packed ++ [⟨e, default, []⟩] }
  else
    placeAt pad (if st.cursor.x + e.size.x + pad.x > atlasW then nextLine pad st else st) e

/-- `void store_pixels()`: `m_cursor = m_pad; for (auto& entry : m_entries) ...`. -/
def storePixels (atlasW : Int) (pad : Ivec2) (entries : List Slot) : PackState :=
  entries.foldl (placeOne atlasW pad) { cursor := pad, lineHeight := 0, packed := [] }

/-- `m_atlas_size.y = m_cursor.y + m_line_height + m_pad.y` at the end
of `store_pixels`. -/
def storeHeight (pad : Ivec2) (st : PackState) : Int := st.cursor.y + st.lineHeight + pad.y

/-- `BuildAtlas::max_size_v = 8 * 1024`. -/
def max_size_v : Int := 8 * 1024

/-- One glyph of a finalized atlas: the recorded integer rectangle, its
normalized form (the float division of `finalize` modelled as exact
rational division), the slot size and alpha byte count, and the pixel
block the glyph contributed. -/
structure GlyphM where
  size : Ivec2
  count : Nat
  rect : RectI
  uvLt : ℚ × ℚ
  uvRb : ℚ × ℚ
  pixels : List (Ivec2 × Nat)
deriving Repr

/-- A finalized atlas: bitmap dimensions and glyph list. -/
structure AtlasM where
  width : Int
  height : Int
  glyphs : List GlyphM
deriving Repr

/-- `BuildAtlas::finalize`: `m_atlas_size.y = pot(m_atlas_size.y)`, the
bitmap is allocated at `m_atlas_size`, and each entry becomes a glyph
whose `uv_rect` is the entry's integer rectangle divided componentwise
by the atlas size. -/
def finalize (atlasW : Int) (pad : Ivec2) (st : PackState) : AtlasM :=
  let h := pot (storeHeight pad st)
  { width := atlasW
    height := h
    glyphs := st.packed.map fun pe =>
      { size := pe.slot.size
        count := pe.count
        rect := pe.rect
        uvLt := ((pe.rect.lt.x : ℚ) / (atlasW : ℚ), (pe.rect.lt.y : ℚ) / (h : ℚ))
        uvRb := ((pe.rect.rb.x : ℚ) / (atlasW : ℚ), (pe.rect.rb.y : ℚ) / (h : ℚ))
        pixels := pe.pixels } }

/-- `Typeface::build_atlas` / `BuildAtlas::operator()`: `none` models
the `return {}` of the source (the default, empty `Atlas`).  Early out
when the face is not loaded; pack; empty result when either packed
dimension exceeds `max_size_v`; otherwise finalize. -/
def build_atlas (loaded : Bool) (pad : Ivec2) (entries : List Slot) : Option AtlasM :=
  if ¬loaded then none
  else if atlasWidth pad entries > max_size_v ∨
      storeHeight pad (storePixels (atlasWidth pad entries) pad entries) > max_size_v then
    none
  else
    some (finalize (atlasWidth pad entries) pad
      (storePixels (atlasWidth pad entries) pad entries))

/-- The well-formedness `load_entry` guarantees for every slot it stores:
sizes are non-negative (they come from unsigned bitmap dimensions) and
the alpha byte count is `width * rows` for a loaded slot and 0 for a
failed load. -/
def SlotWf (e : Slot) : Prop :=
  0 ≤ e.size.x ∧ 0 ≤ e.size.y ∧
  (e.alpha_channels.length = 0 ∨ (e.alpha_channels.length : Int) = e.size.x * e.size.y)

/-- What `store_pixels` guarantees for an already-placed entry with a
non-empty bitmap, relative to the current loop state: padding margins,
the width bound, the rectangle/pixel relationship, and the row
structure (an entry in the current row ends left of the cursor; an
entry in an earlier row lies fully above the cursor line). -/
def EntryProps (atlasW : Int) (pad : Ivec2) (st : PackState) (pe : PackedEntry) : Prop :=
  pad.x ≤ pe.rect.lt.x ∧ pad.y ≤ pe.rect.lt.y ∧
  pe.rect.rb.x + pad.x ≤ atlasW ∧
  pe.rect.rb = pe.rect.lt + pe.slot.size ∧
  SlotWf pe.slot ∧
  pe.pixels = pixelsFor pe.slot pe.rect.lt ∧
  (pe.rect.lt.y = st.cursor.y → pe.rect.rb.x + pad.x ≤ st.cursor.x) ∧
  (pe.rect.lt.y = st.cursor.y ∨ (pe.rect.lt.y < st.cursor.y ∧ pe.rect.rb.y ≤ st.cursor.y)) ∧
  pe.rect.rb.y ≤ st.cursor.y + st.lineHeight

/-- The loop invariant of `store_pixels`: cursor at or right of the
left padding, at or below the top padding, non-negative line height,
every placed non-empty entry satisfies `EntryProps`, and the placed
rectangles of non-empty entries are pairwise disjoint. -/
def PackInv (atlasW : Int) (pad : Ivec2) (st : PackState) : Prop :=
  pad.x ≤ st.cursor.x ∧ pad.y ≤ st.cursor.y ∧ 0 ≤ st.lineHeight ∧
  (∀ pe ∈ st.packed, 0 < pe.count → EntryProps atlasW pad st pe) ∧
  st.packed.Pairwise (fun a b => 0 < a.count → 0 < b.count → a.rect.disjoint b.rect)

end Ttf

/-! ## Spec-side formulations for claim C8

These two definitions follow the specification's words (the requested
image count is `KVF_RESOURCE_BUFFERING + 1` clamped into
`[minImageCount, maxImageCount]`, with the limitless special case; the
extent is `currentExtent` or the framebuffer extent clamped per-axis),
to be compared against the source-derived `Swapchain.get_image_count`
and `Swapchain.get_image_extent`. -/

/-- The claim's description of the requested image count, written with
`Nat.max`/`Nat.min` clamping. -/
def specImageCount (buffering : Nat) (caps : Swapchain.SurfaceCaps) : Nat :=
  if caps.maxImageCount < caps.minImageCount then
    max (buffering + 1) caps.minImageCount
  else
    max caps.minImageCount (min (buffering + 1) caps.maxImageCount)

/-- The claim's description of the image extent, written with
`Nat.max`/`Nat.min` per-axis clamping. -/
def specImageExtent (caps : Swapchain.SurfaceCaps) (fbW fbH : Nat) : Nat × Nat :=
  if caps.currentExtentW < 2 ^ 32 - 1 ∧ caps.currentExtentH < 2 ^ 32 - 1 then
    (caps.currentExtentW, caps.currentExtentH)
  else
    (max caps.minImageExtentW (min fbW caps.maxImageExtentW),
     max caps.minImageExtentH (min fbH caps.maxImageExtentH))

/-! # Theorems -/

@[simp] theorem Ivec2.add_x (a b : Ivec2) : (a + b).x = a.x + b.x := rfl

@[simp] theorem Ivec2.add_y (a b : Ivec2) : (a + b).y = a.y + b.y := rfl

/-! ## Claim C9: color packing round-trips -/

theorem Color.to_u32_mk (x y z w : Nat) (hy : y < 256) (hz : z < 256) (hw : w < 256) :
    (Color.mk x y z w).to_u32 = x * 2 ^ 24 + y * 2 ^ 16 + z * 2 ^ 8 + w := by
  show (x <<< (3 * 8)) ||| (y <<< (2 * 8)) ||| (z <<< 8) ||| w = _
  rw [Nat.or_assoc, Nat.or_assoc]
  rw [Nat.shiftLeft_eq, Nat.shiftLeft_eq, Nat.shiftLeft_eq]
  rw [Nat.mul_comm z, ← Nat.mul_add_lt_is_or (by omega : w < 2 ^ 8)]
  rw [Nat.mul_comm y, ← Nat.mul_add_lt_is_or (by omega : 2 ^ 8 * z + w < 2 ^ 16)]
  rw [Nat.mul_comm x,
    ← Nat.mul_add_lt_is_or (by omega : 2 ^ 16 * y + (2 ^ 8 * z + w) < 2 ^ 24)]
  ring

theorem Color.red_eq (m : Nat) : Color.red m = m / 2 ^ 24 % 256 := by
  unfold Color.red
  rw [show (3 * 8 = 24) from rfl, Nat.shiftRight_eq_div_pow]
  have h := Nat.and_pow_two_sub_one_eq_mod (m / 2 ^ 24) 8
  norm_num at h ⊢
  exact h

theorem Color.green_eq (m : Nat) : Color.green m = m / 2 ^ 16 % 256 := by
  unfold Color.green
  rw [show (2 * 8 = 16) from rfl, Nat.shiftRight_eq_div_pow]
  have h := Nat.and_pow_two_sub_one_eq_mod (m / 2 ^ 16) 8
  norm_num at h ⊢
  exact h

theorem Color.blue_eq (m : Nat) : Color.blue m = m / 2 ^ 8 % 256 := by
  unfold Color.blue
  rw [show (1 * 8 = 8) from rfl, Nat.shiftRight_eq_div_pow]
  have h := Nat.and_pow_two_sub_one_eq_mod (m / 2 ^ 8) 8
  norm_num at h ⊢
  exact h

theorem Color.alpha_eq (m : Nat) : Color.alpha m = m % 256 := by
  unfold Color.alpha
  rw [show (0 * 8 = 0) from rfl, Nat.shiftRight_eq_div_pow]
  have h := Nat.and_pow_two_sub_one_eq_mod (m / 2 ^ 0) 8
  norm_num at h ⊢
  exact h

/-- C9: color packing round-trips exactly.  For every `Color` (four byte
channels), reconstructing from `to_u32` gives back the same color, and
for every 32-bit mask, `Color(mask).to_u32()` gives back the mask: the
mask constructor and `to_u32` are mutually inverse between byte-valued
colors and 32-bit RGBA masks. -/
theorem color_to_u32_roundtrip :
    (∀ c : Color, c.x < 256 → c.y < 256 → c.z < 256 → c.w < 256 →
      Color.ofMask c.to_u32 = c) ∧
    (∀ m : Nat, m < 2 ^ 32 → (Color.ofMask m).to_u32 = m) := by
  constructor
  · rintro ⟨x, y, z, w⟩ hx hy hz hw
    have hx' : x < 256 := hx
    have hy' : y < 256 := hy
    have hz' : z < 256 := hz
    have hw' : w < 256 := hw
    rw [Color.to_u32_mk x y z w hy' hz' hw']
    unfold Color.ofMask
    rw [Color.red_eq, Color.green_eq, Color.blue_eq, Color.alpha_eq]
    simp only [Color.mk.injEq]
    refine ⟨by omega, by omega, by omega, by omega⟩
  · intro m hm
    have hg : Color.green m < 256 := by rw [Color.green_eq]; omega
    have hb : Color.blue m < 256 := by rw [Color.blue_eq]; omega
    have ha : Color.alpha m < 256 := by rw [Color.alpha_eq]; omega
    rw [show Color.ofMask m =
        Color.mk (Color.red m) (Color.green m) (Color.blue m) (Color.alpha m) from rfl]
    rw [Color.to_u32_mk _ _ _ _ hg hb ha]
    rw [Color.red_eq, Color.green_eq, Color.blue_eq, Color.alpha_eq]
    omega

/-- Witness for C9 at concrete inputs. -/
theorem color_to_u32_roundtrip_witness :
    Color.ofMask (Color.to_u32 ⟨0xab, 0xcd, 0xef, 0x12⟩) = ⟨0xab, 0xcd, 0xef, 0x12⟩ ∧
    (Color.ofMask 0xdeadbeef).to_u32 = 0xdeadbeef :=
  ⟨color_to_u32_roundtrip.1 ⟨0xab, 0xcd, 0xef, 0x12⟩ (by decide) (by decide) (by decide)
      (by decide),
    color_to_u32_roundtrip.2 0xdeadbeef (by norm_num)⟩

/-! ## Claim C10: glyph-slot pixel indexing is total -/

/-- C10: `Slot::operator[]` is total at the public interface: when the
linear index `(y * size.x) + x`, taken as a `size_t`, is not below the
alpha span's length, the operator returns the zero byte; and in every
case the returned byte is either that zero default or an element of the
alpha span — the operator never reads outside `alpha_channels`. -/
theorem slot_get_total (s : Slot) (x y : Int) :
    (s.alpha_channels.length ≤ toSizeT ((y * s.size.x) + x) → s.get x y = 0) ∧
    (s.get x y = 0 ∨ s.get x y ∈ s.alpha_channels) := by
  unfold Slot.get
  constructor
  · intro h
    simp only [ge_iff_le, h, if_pos]
  · by_cases h : s.alpha_channels.length ≤ toSizeT ((y * s.size.x) + x)
    · left; simp only [ge_iff_le, h, if_pos]
    · right
      simp only [ge_iff_le, h, if_neg, if_false]
      have hlt : toSizeT ((y * s.size.x) + x) < s.alpha_channels.length := by omega
      rw [List.getD_eq_getElem?_getD, List.getElem?_eq_getElem hlt, Option.getD_some]
      exact List.getElem_mem hlt

/-- Witness for C10: a 3×2 slot with 3 alpha bytes queried out of
bounds returns 0, and in bounds returns a stored byte. -/
theorem slot_get_total_witness :
    Slot.get ⟨⟨3, 2⟩, [10, 20, 30]⟩ 2 1 = 0 ∧
    (Slot.get ⟨⟨3, 2⟩, [10, 20, 30]⟩ 1 0 = 0 ∨
      Slot.get ⟨⟨3, 2⟩, [10, 20, 30]⟩ 1 0 ∈ [10, 20, 30]) :=
  ⟨(slot_get_total ⟨⟨3, 2⟩, [10, 20, 30]⟩ 2 1).1 (by decide),
    (slot_get_total ⟨⟨3, 2⟩, [10, 20, 30]⟩ 1 0).2⟩

/-! ## Claim C5: the resource buffering count -/

/-- C5 counterexample: the code's `static_assert` accepts
`KVF_RESOURCE_BUFFERING = 4`, which is neither 2 nor 3 — the claim that
the buffering count is always double or triple is not what the code
enforces. -/
theorem buffering_not_two_or_three :
    bufferingAssert 4 = true ∧ ¬((4 : Nat) = 2 ∨ (4 : Nat) = 3) := by
  decide

/-- C5 amended: the buffering count accepted by the code's
`static_assert` is exactly the range `2 ≤ b ≤ 8` (double- up to
octuple-buffering); 2 and 3 are the spec's typical choices but not the
only accepted values. -/
theorem buffering_assert_range (b : Nat) :
    bufferingAssert b = true ↔ (2 ≤ b ∧ b ≤ 8) := by
  simp [bufferingAssert]

/-- Witness for the amended C5 at a concrete input. -/
theorem buffering_assert_range_witness :
    bufferingAssert 3 = true ↔ (2 ≤ 3 ∧ 3 ≤ 8) :=
  buffering_assert_range 3

/-! ## Claim C3: the swapchain acquire/present cycle -/

/-- C3: the acquire/present cycle holds at most one acquired image.
Acquiring while an image index is held returns `true` immediately and
changes nothing; `present` clears the held index regardless of outcome
(even when it throws), returns `false` exactly on `ErrorOutOfDateKHR`,
returns `true` exactly on `Success` or `SuboptimalKHR`, and throws on
every other result. -/
theorem swapchain_acquire_present_cycle :
    (∀ (s : SwapState) (res : VkResult) (idx : Nat), s.imageIndex.isSome →
      Swapchain.acquire_next_image res idx s = (s, .ok true)) ∧
    (∀ (s : SwapState) (res : VkResult),
      (Swapchain.present res s).1.imageIndex = none) ∧
    (∀ (s : SwapState) (res : VkResult),
      (Swapchain.present res s).2 = .ok false ↔ res = .errorOutOfDateKHR) ∧
    (∀ (s : SwapState) (res : VkResult),
      (Swapchain.present res s).2 = .ok true ↔
        (res = .success ∨ res = .suboptimalKHR)) ∧
    (∀ (s : SwapState) (res : VkResult),
      (∃ e, (Swapchain.present res s).2 = .error e) ↔
        (res ≠ .success ∧ res ≠ .suboptimalKHR ∧ res ≠ .errorOutOfDateKHR)) := by
  refine ⟨?_, ?_, ?_, ?_, ?_⟩
  · intro s res idx h
    unfold Swapchain.acquire_next_image
    rw [if_pos h]
  · intro s res
    cases res <;> rfl
  · intro s res
    cases res <;> simp [Swapchain.present]
  · intro s res
    cases res <;> simp [Swapchain.present]
  · intro s res
    cases res <;> simp [Swapchain.present]

/-- Witness for C3 at concrete inputs. -/
theorem swapchain_acquire_present_cycle_witness :
    Swapchain.acquire_next_image .errorOutOfDateKHR 7 ⟨some 3⟩ = (⟨some 3⟩, .ok true) :=
  swapchain_acquire_present_cycle.1 ⟨some 3⟩ .errorOutOfDateKHR 7 (by decide)

/-! ## Claim C4: descriptor allocation and pool recycling -/

/-- C4: `DescriptorAllocator::allocate` returns `false` with nothing
allocated (state untouched) when `layouts` is empty or the two span
sizes disagree; when the first attempt fails with
`ErrorOutOfPoolMemory` it advances the pool index by one — a pool valid
at that index exists afterwards — and retries exactly once, returning
`true` iff the retry result is `Success`; any other error from the
first attempt returns `false`; a successful first attempt returns
`true`.  `reset()` resets every pool (length preserved, each pool's
reset counter bumped) and rewinds the pool index to 0. -/
theorem descriptor_allocator_spec :
    (∀ (r₁ r₂ : VkResult) (nOut nLay : Nat) (s : DescAllocState),
      nLay = 0 ∨ nOut ≠ nLay →
        DescriptorAllocator.allocate r₁ r₂ nOut nLay s = (s, false)) ∧
    (∀ (r₂ : VkResult) (nOut nLay : Nat) (s : DescAllocState),
      nLay ≠ 0 → nOut = nLay →
        (DescriptorAllocator.allocate .errorOutOfPoolMemory r₂ nOut nLay s).1.index =
            s.index + 1 ∧
          (DescriptorAllocator.allocate .errorOutOfPoolMemory r₂ nOut nLay s).1.index <
            (DescriptorAllocator.allocate .errorOutOfPoolMemory r₂ nOut nLay s).1.pools.length ∧
          ((DescriptorAllocator.allocate .errorOutOfPoolMemory r₂ nOut nLay s).2 = true ↔
            r₂ = .success)) ∧
    (∀ (r₁ r₂ : VkResult) (nOut nLay : Nat) (s : DescAllocState),
      nLay ≠ 0 → nOut = nLay → r₁ ≠ .success → r₁ ≠ .errorOutOfPoolMemory →
        (DescriptorAllocator.allocate r₁ r₂ nOut nLay s).2 = false) ∧
    (∀ (r₂ : VkResult) (nOut nLay : Nat) (s : DescAllocState),
      nLay ≠ 0 → nOut = nLay →
        (DescriptorAllocator.allocate .success r₂ nOut nLay s).2 = true) ∧
    (∀ s : DescAllocState,
      (DescriptorAllocator.reset s).index = 0 ∧
        (DescriptorAllocator.reset s).pools.length = s.pools.length ∧
        ∀ i, i < s.pools.length →
          (DescriptorAllocator.reset s).pools.getD i 0 = s.pools.getD i 0 + 1) := by
  refine ⟨?_, ?_, ?_, ?_, ?_⟩
  · intro r₁ r₂ nOut nLay s h
    unfold DescriptorAllocator.allocate
    rw [if_pos h]
  · intro r₂ nOut nLay s h1 h2
    have hg : ¬(nLay = 0 ∨ nOut ≠ nLay) := by tauto
    unfold DescriptorAllocator.allocate
    rw [if_neg hg]
    refine ⟨rfl, ?_, by cases r₂ <;> simp⟩
    show s.index + 1 < _
    simp only [DescriptorAllocator.ensurePool, List.length_append, List.length_replicate]
    omega
  · intro r₁ r₂ nOut nLay s h1 h2 h3 h4
    have hg : ¬(nLay = 0 ∨ nOut ≠ nLay) := by tauto
    unfold DescriptorAllocator.allocate
    rw [if_neg hg]
    cases r₁ <;> simp_all
  · intro r₂ nOut nLay s h1 h2
    have hg : ¬(nLay = 0 ∨ nOut ≠ nLay) := by tauto
    unfold DescriptorAllocator.allocate
    rw [if_neg hg]
  · intro s
    refine ⟨rfl, by simp [DescriptorAllocator.reset], ?_⟩
    intro i hi
    unfold DescriptorAllocator.reset
    simp only []
    rw [List.getD_eq_getElem?_getD, List.getD_eq_getElem?_getD,
      List.getElem?_eq_getElem (by simpa using hi),
      List.getElem?_eq_getElem hi]
    simp

/-- Witness for C4 at concrete inputs (size-mismatch early out and the
out-of-pool-memory retry). -/
theorem descriptor_allocator_spec_witness :
    DescriptorAllocator.allocate .success .otherError 2 3 ⟨[0], 0⟩ = (⟨[0], 0⟩, false) ∧
    (DescriptorAllocator.allocate .errorOutOfPoolMemory .success 2 2 ⟨[0], 0⟩).1.index = 1 :=
  ⟨descriptor_allocator_spec.1 .success .otherError 2 3 ⟨[0], 0⟩ (by decide),
    (descriptor_allocator_spec.2.1 .success 2 2 ⟨[0], 0⟩ (by decide) rfl).1⟩

/-! ## Claim C2: next_frame resets only after a successful fence wait -/

theorem bumpAt_getD_self (l : List Nat) (i : Nat) (h : i < l.length) :
    (bumpAt l i).getD i 0 = l.getD i 0 + 1 := by
  unfold bumpAt
  rw [List.getD_eq_getElem?_getD, List.getElem?_set_self (by simpa using h)]
  rw [List.getD_eq_getElem?_getD, List.getElem?_eq_getElem h]
  simp

/-- C2: `RenderDevice::Impl::next_frame` resets the current frame
slot's descriptor allocator and scratch-buffer allocator and re-begins
the slot's command buffer only after the wait on that slot's `drawn`
fence succeeded; when the wait fails it throws
"Failed to wait for Render Fence" and leaves the state unchanged (no
allocator is reset). -/
theorem next_frame_fence_gate :
    (∀ s : FrameState,
      RenderDevice.next_frame false s = (s, .error "Failed to wait for Render Fence")) ∧
    (∀ s : FrameState,
      s.frameIndex < s.descResets.length →
      s.frameIndex < s.bufResets.length →
      s.frameIndex < s.cmdBegins.length →
        (RenderDevice.next_frame true s).1.descResets.getD s.frameIndex 0 =
            s.descResets.getD s.frameIndex 0 + 1 ∧
          (RenderDevice.next_frame true s).1.bufResets.getD s.frameIndex 0 =
            s.bufResets.getD s.frameIndex 0 + 1 ∧
          (RenderDevice.next_frame true s).1.cmdBegins.getD s.frameIndex 0 =
            s.cmdBegins.getD s.frameIndex 0 + 1 ∧
          (RenderDevice.next_frame true s).1.currentCmd = some s.frameIndex ∧
          (RenderDevice.next_frame true s).1.frameIndex = s.frameIndex ∧
          (RenderDevice.next_frame true s).2 = .ok s.frameIndex) := by
  constructor
  · intro s
    rfl
  · intro s hd hb hc
    refine ⟨?_, ?_, ?_, rfl, rfl, rfl⟩
    · exact bumpAt_getD_self s.descResets s.frameIndex hd
    · exact bumpAt_getD_self s.bufResets s.frameIndex hb
    · exact bumpAt_getD_self s.cmdBegins s.frameIndex hc

/-- Witness for C2 at a concrete state. -/
theorem next_frame_fence_gate_witness :
    RenderDevice.next_frame false ⟨1, [0, 0], [0, 0], [0, 0], none⟩ =
      (⟨1, [0, 0], [0, 0], [0, 0], none⟩, .error "Failed to wait for Render Fence") ∧
    (RenderDevice.next_frame true ⟨1, [0, 0], [0, 0], [0, 0], none⟩).1.descResets.getD 1 0 =
      0 + 1 :=
  ⟨next_frame_fence_gate.1 ⟨1, [0, 0], [0, 0], [0, 0], none⟩,
    (next_frame_fence_gate.2 ⟨1, [0, 0], [0, 0], [0, 0], none⟩ (by decide) (by decide)
      (by decide)).1⟩

/-! ## Claim C1: the frame index ring -/

theorem frameAfter_eq (B i : Nat) (hi : i < B) (n : Nat) :
    RenderDevice.frameAfter B i n = (i + n) % B := by
  induction n with
  | zero => simpa [RenderDevice.frameAfter] using (Nat.mod_eq_of_lt hi).symm
  | succ n ih =>
      show (RenderDevice.frameAfter B i n + 1) % B = _
      rw [ih, show i + (n + 1) = (i + n) + 1 from by ring]
      exact Nat.ModEq.add_right 1 (Nat.mod_modEq (i + n) B)

/-- C1: every call to `render` that reaches submission and presentation
advances the frame index by exactly 1 modulo `resource_buffering_v`
(`B`); every other outcome leaves it unchanged; the frame index stays
strictly below `B`; and the per-frame slot sequence is a ring buffer:
after `n` submitted frames the slot is `(i + n) % B`, each slot recurs
after exactly `B` further submissions and never earlier. -/
theorem render_frame_ring (B : Nat) (hB : 2 ≤ B) :
    (∀ (env : RenderDevice.RenderEnv) (s : RenderDevice.RenderState),
      (RenderDevice.render B env s).2 = .submitted →
        (RenderDevice.render B env s).1.frameIndex = (s.frameIndex + 1) % B) ∧
    (∀ (env : RenderDevice.RenderEnv) (s : RenderDevice.RenderState),
      (RenderDevice.render B env s).2 ≠ .submitted →
        (RenderDevice.render B env s).1.frameIndex = s.frameIndex) ∧
    (∀ (env : RenderDevice.RenderEnv) (s : RenderDevice.RenderState),
      s.frameIndex < B → (RenderDevice.render B env s).1.frameIndex < B) ∧
    (∀ i n, i < B → RenderDevice.frameAfter B i n = (i + n) % B) ∧
    (∀ i n, i < B →
      RenderDevice.frameAfter B i (n + B) = RenderDevice.frameAfter B i n) ∧
    (∀ i n k, i < B → 0 < k → k < B →
      RenderDevice.frameAfter B i (n + k) ≠ RenderDevice.frameAfter B i n) := by
  have hB0 : 0 < B := by omega
  have hsub : ∀ (env : RenderDevice.RenderEnv) (s : RenderDevice.RenderState),
      ((RenderDevice.render B env s).2 = .submitted →
        (RenderDevice.render B env s).1.frameIndex = (s.frameIndex + 1) % B) ∧
      ((RenderDevice.render B env s).2 ≠ .submitted →
        (RenderDevice.render B env s).1.frameIndex = s.frameIndex) := by
    intro env s
    unfold RenderDevice.render
    split
    · exact ⟨fun h => absurd h (by simp), fun _ => rfl⟩
    · split
      · exact ⟨fun h => absurd h (by simp), fun _ => rfl⟩
      · split
        · exact ⟨fun h => absurd h (by simp), fun _ => rfl⟩
        · split
          · exact ⟨fun h => absurd h (by simp), fun _ => rfl⟩
          · exact ⟨fun h => absurd h (by simp), fun _ => rfl⟩
          · split
            · exact ⟨fun h => absurd h (by simp), fun _ => rfl⟩
            · exact ⟨fun _ => rfl, fun h => absurd rfl h⟩
  refine ⟨fun env s => (hsub env s).1, fun env s => (hsub env s).2, ?_, ?_, ?_, ?_⟩
  · intro env s hi
    by_cases h : (RenderDevice.render B env s).2 = .submitted
    · rw [(hsub env s).1 h]
      exact Nat.mod_lt _ hB0
    · rw [(hsub env s).2 h]
      exact hi
  · intro i n hi
    exact frameAfter_eq B i hi n
  · intro i n hi
    rw [frameAfter_eq B i hi, frameAfter_eq B i hi, ← Nat.add_assoc,
      Nat.add_mod_right]
  · intro i n k hi hk hkB
    rw [frameAfter_eq B i hi, frameAfter_eq B i hi]
    intro h
    have h2 : (i + n) + k ≡ i + n [MOD B] := by
      rw [Nat.ModEq, ← Nat.add_assoc] at *
      exact h
    have h3 : B ∣ (i + n) + k - (i + n) := (Nat.modEq_iff_dvd' (Nat.le_add_right _ _)).mp h2.symm
    rw [Nat.add_sub_cancel_left] at h3
    exact absurd (Nat.le_of_dvd hk h3) (by omega)

/-- Witness for C1: with `B = 3`, a full render pass from frame 2 wraps
the index to 0, and the ring facts at concrete values. -/
theorem render_frame_ring_witness :
    (RenderDevice.render 3 ⟨100, 100, true, .success, 0, .success⟩
        ⟨2, some 2, ⟨none⟩⟩).1.frameIndex = (2 + 1) % 3 ∧
    RenderDevice.frameAfter 3 1 5 = (1 + 5) % 3 ∧
    RenderDevice.frameAfter 3 1 (5 + 3) = RenderDevice.frameAfter 3 1 5 ∧
    RenderDevice.frameAfter 3 1 (5 + 2) ≠ RenderDevice.frameAfter 3 1 5 :=
  ⟨(render_frame_ring 3 (by decide)).1 ⟨100, 100, true, .success, 0, .success⟩
      ⟨2, some 2, ⟨none⟩⟩ (by decide),
    (render_frame_ring 3 (by decide)).2.2.2.1 1 5 (by decide),
    (render_frame_ring 3 (by decide)).2.2.2.2.1 1 5 (by decide),
    (render_frame_ring 3 (by decide)).2.2.2.2.2 1 5 2 (by decide) (by decide) (by decide)⟩

/-! ## Claim C8: swapchain image count and extent selection -/

theorem stdClamp_eq_max_min (v lo hi : Nat) (h : lo ≤ hi) :
    Swapchain.stdClamp v lo hi = max lo (min v hi) := by
  unfold Swapchain.stdClamp
  rcases Nat.lt_or_ge v lo with hv | hv
  · rw [if_pos hv, Nat.max_eq_left]
    exact le_trans (Nat.min_le_left _ _) (by omega)
  · rw [if_neg (by omega)]
    rcases Nat.lt_or_ge hi v with hh | hh
    · rw [if_pos hh, Nat.min_eq_right (by omega), Nat.max_eq_right h]
    · rw [if_neg (by omega), Nat.min_eq_left hh, Nat.max_eq_right hv]

/-- C8: the requested swapchain image count is
`KVF_RESOURCE_BUFFERING + 1` clamped into
`[minImageCount, maxImageCount]`, and `max(KVF_RESOURCE_BUFFERING + 1,
minImageCount)` in the limitless `maxImageCount < minImageCount` case;
the image extent is the surface's `currentExtent` when both dimensions
are below the `uint32` maximum, and otherwise the framebuffer extent
clamped per-axis into `[minImageExtent, maxImageExtent]` (Vulkan
guarantees `minImageExtent ≤ maxImageExtent`, carried as a
hypothesis). -/
theorem swapchain_count_extent_spec :
    (∀ (buffering : Nat) (caps : Swapchain.SurfaceCaps),
      Swapchain.get_image_count buffering caps = specImageCount buffering caps) ∧
    (∀ (caps : Swapchain.SurfaceCaps) (fbW fbH : Nat),
      caps.minImageExtentW ≤ caps.maxImageExtentW →
      caps.minImageExtentH ≤ caps.maxImageExtentH →
        Swapchain.get_image_extent caps fbW fbH = specImageExtent caps fbW fbH) := by
  constructor
  · intro buffering caps
    unfold Swapchain.get_image_count specImageCount
    rcases Nat.lt_or_ge caps.maxImageCount caps.minImageCount with h | h
    · rw [if_pos h, if_pos h]
      rfl
    · rw [if_neg (by omega), if_neg (by omega)]
      exact stdClamp_eq_max_min _ _ _ h
  · intro caps fbW fbH hw hh
    unfold Swapchain.get_image_extent specImageExtent Swapchain.limitless_v
    by_cases h : caps.currentExtentW < 2 ^ 32 - 1 ∧ caps.currentExtentH < 2 ^ 32 - 1
    · rw [if_pos h, if_pos h]
    · rw [if_neg h, if_neg h, stdClamp_eq_max_min _ _ _ hw, stdClamp_eq_max_min _ _ _ hh]

/-- Witness for C8 at concrete capabilities (the clamped branch and a
limitless-extent surface). -/
theorem swapchain_count_extent_spec_witness :
    Swapchain.get_image_count 2 ⟨2, 8, 640, 480, 1, 1, 4096, 4096⟩ =
      specImageCount 2 ⟨2, 8, 640, 480, 1, 1, 4096, 4096⟩ ∧
    Swapchain.get_image_extent ⟨2, 8, 2 ^ 32 - 1, 480, 1, 1, 4096, 4096⟩ 9999 7 =
      specImageExtent ⟨2, 8, 2 ^ 32 - 1, 480, 1, 1, 4096, 4096⟩ 9999 7 :=
  ⟨swapchain_count_extent_spec.1 2 ⟨2, 8, 640, 480, 1, 1, 4096, 4096⟩,
    swapchain_count_extent_spec.2 ⟨2, 8, 2 ^ 32 - 1, 480, 1, 1, 4096, 4096⟩ 9999 7
      (by decide) (by decide)⟩

/-! ## Claim C7: atlas size cap and power-of-two dimensions -/

theorem Ttf.potLoop_pow2 (inp : Int) :
    ∀ (fuel : Nat) (ret : Int), (∃ i : Nat, ret = 2 ^ i) →
      ∃ j : Nat, Ttf.potLoop inp fuel ret = 2 ^ j := by
  intro fuel
  induction fuel with
  | zero => intro ret h; exact h
  | succ fuel ih =>
      intro ret h
      unfold Ttf.potLoop
      split
      · obtain ⟨i, hi⟩ := h
        exact ih (2 * ret) ⟨i + 1, by rw [hi]; ring⟩
      · exact h

theorem Ttf.pot_pow2 (inp : Int) : ∃ j : Nat, Ttf.pot inp = 2 ^ j :=
  Ttf.potLoop_pow2 inp 40 1 ⟨0, rfl⟩

theorem Ttf.potLoop_ge (inp : Int) :
    ∀ (fuel : Nat) (ret : Int), 0 < ret → inp ≤ ret * 2 ^ fuel → inp ≤ Ttf.intMax →
      inp ≤ Ttf.potLoop inp fuel ret := by
  intro fuel
  induction fuel with
  | zero =>
      intro ret _ hle _
      simpa [Ttf.potLoop] using hle
  | succ fuel ih =>
      intro ret hpos hle hmax
      unfold Ttf.potLoop
      split
      · exact ih (2 * ret) (by omega) (by rw [pow_succ] at hle; nlinarith) hmax
      · rename_i hguard
        rw [not_and_or, not_lt, not_lt] at hguard
        rcases hguard with h | h
        · exact h
        · exact le_trans hmax h

/-- For any input at most `INT_MAX`, `pot` does not round down. -/
theorem Ttf.pot_ge (inp : Int) (h : inp ≤ Ttf.intMax) : inp ≤ Ttf.pot inp :=
  Ttf.potLoop_ge inp 40 1 one_pos
    (by
      have : Ttf.intMax ≤ 1 * 2 ^ 40 := by unfold Ttf.intMax; norm_num
      omega)
    h

/-- C7: `Typeface::build_atlas` caps the atlas at 8*1024 pixels per
dimension: when the packed atlas width or height exceeds 8192 the
result is the empty atlas (`none`, the source's default-constructed
`Atlas`); whenever a non-empty atlas is returned, both bitmap
dimensions are powers of two. -/
theorem build_atlas_size_cap (loaded : Bool) (pad : Ivec2) (entries : List Slot) :
    ((Ttf.atlasWidth pad entries > Ttf.max_size_v ∨
        Ttf.storeHeight pad
            (Ttf.storePixels (Ttf.atlasWidth pad entries) pad entries) >
          Ttf.max_size_v) →
      Ttf.build_atlas loaded pad entries = none) ∧
    (∀ a : Ttf.AtlasM, Ttf.build_atlas loaded pad entries = some a →
      (∃ i : Nat, a.width = 2 ^ i) ∧ ∃ j : Nat, a.height = 2 ^ j) := by
  constructor
  · intro h
    unfold Ttf.build_atlas
    split
    · rfl
    · rfl
  · intro a ha
    unfold Ttf.build_atlas at ha
    split at ha
    · exact absurd ha (by simp)
    · split at ha
      · exact absurd ha (by simp)
      · have hfin : Ttf.finalize (Ttf.atlasWidth pad entries) pad
            (Ttf.storePixels (Ttf.atlasWidth pad entries) pad entries) = a :=
          Option.some.inj ha
        rw [← hfin]
        exact ⟨Ttf.pot_pow2 _, Ttf.pot_pow2 _⟩

/-- Witness for C7: a huge horizontal padding forces the packed width
past 8192 (empty result); a 1×1 glyph with padding 1 yields a 4×4
atlas, both dimensions powers of two. -/
theorem build_atlas_size_cap_witness :
    Ttf.build_atlas true ⟨8192, 1⟩ [⟨⟨1, 1⟩, [5]⟩] = none ∧
    ((∃ i : Nat, (4 : Int) = 2 ^ i) ∧ ∃ j : Nat, (4 : Int) = 2 ^ j) := by
  constructor
  · exact (build_atlas_size_cap true ⟨8192, 1⟩ [⟨⟨1, 1⟩, [5]⟩]).1 (by decide)
  · exact ⟨⟨2, by norm_num⟩, ⟨2, by norm_num⟩⟩

/-! ## Claim C6: the row packer packs glyphs correctly -/

theorem Ttf.ceilSqrtFrom_ge (n : Nat) :
    ∀ (fuel c : Nat), c ≤ Ttf.ceilSqrtFrom n fuel c := by
  intro fuel
  induction fuel with
  | zero => intro c; exact le_refl c
  | succ fuel ih =>
      intro c
      unfold Ttf.ceilSqrtFrom
      split
      · exact le_refl c
      · exact le_trans (Nat.le_succ c) (ih (c + 1))

theorem Ttf.one_le_ceilSqrt (n : Nat) (h : 1 ≤ n) : 1 ≤ Ttf.ceilSqrt n := by
  unfold Ttf.ceilSqrt
  cases n with
  | zero => omega
  | succ m =>
      unfold Ttf.ceilSqrtFrom
      rw [if_neg (by omega)]
      exact Ttf.ceilSqrtFrom_ge (m + 1) m 1

theorem Ttf.foldl_max_init_le (l : List Slot) :
    ∀ i : Int, i ≤ l.foldl (fun m e => max m e.size.x) i := by
  induction l with
  | nil => intro i; simp
  | cons a l ih =>
      intro i
      exact le_trans (le_max_left i a.size.x) (ih (max i a.size.x))

theorem Ttf.mem_le_foldl_max (l : List Slot) :
    ∀ (i : Int), ∀ e ∈ l, e.size.x ≤ l.foldl (fun m e => max m e.size.x) i := by
  induction l with
  | nil => intro i e he; exact absurd he (List.not_mem_nil e)
  | cons a l ih =>
      intro i e he
      rcases List.mem_cons.mp he with rfl | he'
      · exact le_trans (le_max_right i e.size.x) (Ttf.foldl_max_init_le l _)
      · exact ih (max i a.size.x) e he'

theorem Ttf.maxGlyphWidth_nonneg (entries : List Slot) :
    0 ≤ Ttf.maxGlyphWidth entries :=
  Ttf.foldl_max_init_le entries 0

theorem Ttf.le_maxGlyphWidth (entries : List Slot) (e : Slot) (he : e ∈ entries) :
    e.size.x ≤ Ttf.maxGlyphWidth entries :=
  Ttf.mem_le_foldl_max entries 0 e he

theorem Ttf.potLoop_lt_intMax_ge (inp : Int) :
    ∀ (fuel : Nat) (ret : Int), 0 < ret → Ttf.intMax ≤ ret * 2 ^ fuel →
      Ttf.potLoop inp fuel ret < Ttf.intMax → inp ≤ Ttf.potLoop inp fuel ret := by
  intro fuel
  induction fuel with
  | zero =>
      intro ret _ hle hlt
      simp only [Ttf.potLoop, pow_zero, mul_one] at *
      omega
  | succ fuel ih =>
      intro ret hpos hle hlt
      unfold Ttf.potLoop at hlt ⊢
      split at hlt
      · rename_i hguard
        rw [if_pos hguard]
        exact ih (2 * ret) (by omega) (by rw [pow_succ] at hle; nlinarith) hlt
      · rename_i hguard
        rw [if_neg hguard]
        rw [not_and_or, not_lt, not_lt] at hguard
        rcases hguard with h | h
        · exact h
        · omega

/-- When `pot`'s result is below `INT_MAX`, the loop stopped because it
reached the input, so the result is at least the input. -/
theorem Ttf.pot_lt_intMax_ge (inp : Int) (h : Ttf.pot inp < Ttf.intMax) :
    inp ≤ Ttf.pot inp :=
  Ttf.potLoop_lt_intMax_ge inp 40 1 one_pos
    (by unfold Ttf.intMax; norm_num) h

/-- Any non-empty entry fits on a line of the packed atlas width, once
that width is at most `INT_MAX` (which holds on every non-empty
result): `e.size.x + 2 * pad.x ≤ atlasWidth pad entries`. -/
theorem Ttf.entry_fits (pad : Ivec2) (entries : List Slot) (e : Slot) (he : e ∈ entries)
    (hpx : 0 ≤ pad.x) (hcap : Ttf.atlasWidth pad entries ≤ Ttf.max_size_v) :
    e.size.x + 2 * pad.x ≤ Ttf.atlasWidth pad entries := by
  have hlen : 1 ≤ entries.length := List.length_pos.mpr (List.ne_nil_of_mem he)
  have hcols : (1 : Int) ≤ (Ttf.ceilSqrt entries.length : Int) := by
    exact_mod_cast Ttf.one_le_ceilSqrt entries.length hlen
  have hmw : e.size.x ≤ Ttf.maxGlyphWidth entries := Ttf.le_maxGlyphWidth entries e he
  have hmw0 : 0 ≤ Ttf.maxGlyphWidth entries := Ttf.maxGlyphWidth_nonneg entries
  have hinp : e.size.x + 2 * pad.x ≤
      (Ttf.maxGlyphWidth entries + pad.x) * (Ttf.ceilSqrt entries.length : Int) + pad.x := by
    have h1 : Ttf.maxGlyphWidth entries + pad.x ≤
        (Ttf.maxGlyphWidth entries + pad.x) * (Ttf.ceilSqrt entries.length : Int) :=
      le_mul_of_one_le_right (by omega) hcols
    omega
  have hge : (Ttf.maxGlyphWidth entries + pad.x) * (Ttf.ceilSqrt entries.length : Int) + pad.x ≤
      Ttf.atlasWidth pad entries := by
    unfold Ttf.atlasWidth at hcap ⊢
    apply Ttf.pot_lt_intMax_ge
    calc Ttf.pot ((Ttf.maxGlyphWidth entries + pad.x) * (Ttf.ceilSqrt entries.length : Int) +
          pad.x) ≤ Ttf.max_size_v := hcap
    _ < Ttf.intMax := by unfold Ttf.max_size_v Ttf.intMax; norm_num
  omega

/-- Membership in an entry's pixel block is exactly membership in the
half-open rectangle `[c, c + size)`. -/
theorem Ttf.pixelsFor_mem (e : Slot) (c : Ivec2) (hx : 0 ≤ e.size.x) (hy : 0 ≤ e.size.y)
    (p : Ivec2) :
    (∃ al, (p, al) ∈ Ttf.pixelsFor e c) ↔
      (c.x ≤ p.x ∧ p.x < c.x + e.size.x ∧ c.y ≤ p.y ∧ p.y < c.y + e.size.y) := by
  unfold Ttf.pixelsFor
  constructor
  · rintro ⟨al, hmem⟩
    rw [List.mem_flatMap] at hmem
    obtain ⟨y, hy', hmem⟩ := hmem
    rw [List.mem_map] at hmem
    obtain ⟨x, hx', hp⟩ := hmem
    rw [List.mem_range] at hy' hx'
    have hpx : p.x = c.x + (x : Int) := by
      have := congrArg Prod.fst hp
      exact (congrArg Ivec2.x this).symm
    have hpy : p.y = c.y + (y : Int) := by
      have := congrArg Prod.fst hp
      exact (congrArg Ivec2.y this).symm
    have hxb : (x : Int) < e.size.x := by
      have : (x : Int) < (e.size.x.toNat : Int) := by exact_mod_cast hx'
      omega
    have hyb : (y : Int) < e.size.y := by
      have : (y : Int) < (e.size.y.toNat : Int) := by exact_mod_cast hy'
      omega
    refine ⟨by omega, by omega, by omega, by omega⟩
  · rintro ⟨h1, h2, h3, h4⟩
    refine ⟨e.get (p.x - c.x) (p.y - c.y), ?_⟩
    rw [List.mem_flatMap]
    refine ⟨(p.y - c.y).toNat, ?_, ?_⟩
    · rw [List.mem_range]
      omega
    · rw [List.mem_map]
      refine ⟨(p.x - c.x).toNat, ?_, ?_⟩
      · rw [List.mem_range]
        omega
      · have hgx : ((p.x - c.x).toNat : Int) = p.x - c.x := by omega
        have hgy : ((p.y - c.y).toNat : Int) = p.y - c.y := by omega
        rw [hgx, hgy]
        have hpt : (⟨c.x + (p.x - c.x), c.y + (p.y - c.y)⟩ : Ivec2) = p := by
          cases p with
          | mk px py =>
              simp only [Ivec2.mk.injEq]
              omega
        rw [hpt]

/-- `placeAt` preserves the packing invariant, assuming the wrapped
entry fits the line at the pre-placement state. -/
theorem Ttf.placeAt_inv (atlasW : Int) (pad : Ivec2) (hpx : 1 ≤ pad.x)
    (e : Slot) (hwf : Ttf.SlotWf e) (st1 : Ttf.PackState)
    (h1 : pad.x ≤ st1.cursor.x) (h2 : pad.y ≤ st1.cursor.y) (h3 : 0 ≤ st1.lineHeight)
    (h4 : st1.cursor.x + e.size.x + pad.x ≤ atlasW)
    (h6 : ∀ pe ∈ st1.packed, 0 < pe.count → Ttf.EntryProps atlasW pad st1 pe)
    (h7 : st1.packed.Pairwise fun a b => 0 < a.count → 0 < b.count → a.rect.disjoint b.rect) :
    Ttf.PackInv atlasW pad (Ttf.placeAt pad st1 e) := by
  have hex := hwf.1
  have hey := hwf.2.1
  unfold Ttf.placeAt
  refine ⟨?_, ?_, ?_, ?_, ?_⟩
  · show pad.x ≤ st1.cursor.x + e.size.x + pad.x
    omega
  · exact h2
  · exact le_trans h3 (le_max_left _ _)
  · intro pe hpe hc
    rcases List.mem_append.mp hpe with hmem | hmem
    · obtain ⟨p1, p2, p3, p4, p5, p6, p7, p8, p9⟩ := h6 pe hmem hc
      refine ⟨p1, p2, p3, p4, p5, p6, ?_, ?_, ?_⟩
      · intro hrow
        have hx := p7 hrow
        show pe.rect.rb.x + pad.x ≤ st1.cursor.x + e.size.x + pad.x
        omega
      · exact p8
      · show pe.rect.rb.y ≤ st1.cursor.y + max st1.lineHeight e.size.y
        have := le_max_left st1.lineHeight e.size.y
        omega
    · rw [List.mem_singleton] at hmem
      subst hmem
      refine ⟨h1, h2, ?_, rfl, hwf, rfl, ?_, Or.inl rfl, ?_⟩
      · show st1.cursor.x + e.size.x + pad.x ≤ atlasW
        exact h4
      · intro _
        show st1.cursor.x + e.size.x + pad.x ≤ st1.cursor.x + e.size.x + pad.x
        exact le_refl _
      · show st1.cursor.y + e.size.y ≤ st1.cursor.y + max st1.lineHeight e.size.y
        have := le_max_right st1.lineHeight e.size.y
        omega
  · rw [List.pairwise_append]
    refine ⟨h7, List.pairwise_singleton _ _, ?_⟩
    intro a ha b hb
    rw [List.mem_singleton] at hb
    subst hb
    intro hca _
    obtain ⟨p1, p2, p3, p4, p5, p6, p7, p8, p9⟩ := h6 a ha hca
    intro p hcontra
    obtain ⟨hpa, hpb⟩ := hcontra
    unfold Ttf.RectI.memP at hpa hpb
    simp only [Ivec2.add_x, Ivec2.add_y] at hpa hpb
    obtain ⟨qa1, qa2, qa3, qa4⟩ := hpa
    obtain ⟨qb1, qb2, qb3, qb4⟩ := hpb
    rcases p8 with hrow | ⟨hlty, hrby⟩
    · have hx := p7 hrow
      omega
    · omega

/-- `placeOne` preserves the packing invariant. -/
theorem Ttf.placeOne_inv (atlasW : Int) (pad : Ivec2) (hpx : 1 ≤ pad.x) (hpy : 1 ≤ pad.y)
    (e : Slot) (hwf : Ttf.SlotWf e)
    (hfit : 0 < e.alpha_channels.length → e.size.x + 2 * pad.x ≤ atlasW)
    (st : Ttf.PackState) (hinv : Ttf.PackInv atlasW pad st) :
    Ttf.PackInv atlasW pad (Ttf.placeOne atlasW pad st e) := by
  obtain ⟨hcx, hcy, hlh, hent, hpair⟩ := hinv
  unfold Ttf.placeOne
  by_cases hcnt : e.alpha_channels.length = 0
  · rw [if_pos hcnt]
    refine ⟨hcx, hcy, hlh, ?_, ?_⟩
    · intro pe hpe hc
      rcases List.mem_append.mp hpe with h | h
      · exact hent pe h hc
      · rw [List.mem_singleton] at h
        subst h
        exact absurd hc (by simp [Ttf.PackedEntry.count, hcnt])
    · rw [List.pairwise_append]
      refine ⟨hpair, List.pairwise_singleton _ _, ?_⟩
      intro a _ b hb
      rw [List.mem_singleton] at hb
      subst hb
      intro _ hcb
      exact absurd hcb (by simp [Ttf.PackedEntry.count, hcnt])
  · rw [if_neg hcnt]
    have hfit' := hfit (Nat.pos_of_ne_zero hcnt)
    by_cases hw : st.cursor.x + e.size.x + pad.x > atlasW
    · rw [if_pos hw]
      apply Ttf.placeAt_inv atlasW pad hpx e hwf (Ttf.nextLine pad st)
      · show pad.x ≤ pad.x
        exact le_refl _
      · show pad.y ≤ st.cursor.y + st.lineHeight + pad.y
        omega
      · exact le_refl 0
      · show pad.x + e.size.x + pad.x ≤ atlasW
        omega
      · intro pe hpe hc
        obtain ⟨p1, p2, p3, p4, p5, p6, p7, p8, p9⟩ := hent pe hpe hc
        have hlty : pe.rect.lt.y ≤ st.cursor.y := by
          rcases p8 with h | ⟨h, _⟩ <;> omega
        refine ⟨p1, p2, p3, p4, p5, p6, ?_, ?_, ?_⟩
        · intro hrow
          rw [show (Ttf.nextLine pad st).cursor.y = st.cursor.y + st.lineHeight + pad.y
            from rfl] at hrow
          omega
        · refine Or.inr ⟨?_, ?_⟩
          · show pe.rect.lt.y < st.cursor.y + st.lineHeight + pad.y
            omega
          · show pe.rect.rb.y ≤ st.cursor.y + st.lineHeight + pad.y
            omega
        · show pe.rect.rb.y ≤ st.cursor.y + st.lineHeight + pad.y + 0
          omega
      · exact hpair
    · rw [if_neg hw]
      exact Ttf.placeAt_inv atlasW pad hpx e hwf st hcx hcy hlh (by omega) hent hpair

/-- The `store_pixels` fold preserves the packing invariant. -/
theorem Ttf.foldl_placeOne_inv (atlasW : Int) (pad : Ivec2) (hpx : 1 ≤ pad.x)
    (hpy : 1 ≤ pad.y) :
    ∀ entries : List Slot,
      (∀ e ∈ entries,
        Ttf.SlotWf e ∧ (0 < e.alpha_channels.length → e.size.x + 2 * pad.x ≤ atlasW)) →
      ∀ st : Ttf.PackState, Ttf.PackInv atlasW pad st →
        Ttf.PackInv atlasW pad (entries.foldl (Ttf.placeOne atlasW pad) st) := by
  intro entries
  induction entries with
  | nil => intro _ st h; exact h
  | cons a l ih =>
      intro hents st h
      rw [List.foldl_cons]
      exact ih (fun e he => hents e (List.mem_cons_of_mem a he)) _
        (Ttf.placeOne_inv atlasW pad hpx hpy a (hents a (List.mem_cons_self a l)).1
          (hents a (List.mem_cons_self a l)).2 st h)

/-- `store_pixels` establishes the packing invariant. -/
theorem Ttf.storePixels_inv (atlasW : Int) (pad : Ivec2) (hpx : 1 ≤ pad.x) (hpy : 1 ≤ pad.y)
    (entries : List Slot)
    (hents : ∀ e ∈ entries,
      Ttf.SlotWf e ∧ (0 < e.alpha_channels.length → e.size.x + 2 * pad.x ≤ atlasW)) :
    Ttf.PackInv atlasW pad (Ttf.storePixels atlasW pad entries) := by
  apply Ttf.foldl_placeOne_inv atlasW pad hpx hpy entries hents
  exact ⟨le_refl _, le_refl _, le_refl _, by intro pe hpe _; exact absurd hpe (by simp),
    List.Pairwise.nil⟩

/-- C6: the font-atlas packer packs glyphs correctly as bins in
left-to-right rows.  For every atlas returned non-empty by
`build_atlas` with positive padding and well-formed loaded slots, each
glyph with a non-empty bitmap occupies exactly the integer pixel
rectangle recorded for it (its pixel block covers precisely that
rectangle, and the glyph's `uv_rect` is that rectangle normalized by
the atlas size), every such rectangle lies fully inside the atlas
bitmap bounds, and the rectangles of distinct non-empty glyphs are
pairwise disjoint. -/
theorem atlas_pack_correct (pad : Ivec2) (entries : List Slot) (a : Ttf.AtlasM)
    (hpx : 1 ≤ pad.x) (hpy : 1 ≤ pad.y)
    (hwf : ∀ e ∈ entries, Ttf.SlotWf e)
    (ha : Ttf.build_atlas true pad entries = some a) :
    (∀ g ∈ a.glyphs, 0 < g.count →
      (1 ≤ g.rect.lt.x ∧ 1 ≤ g.rect.lt.y ∧
        g.rect.rb.x ≤ a.width ∧ g.rect.rb.y ≤ a.height) ∧
      g.rect.rb = g.rect.lt + g.size ∧
      (∀ p : Ivec2, (∃ al, (p, al) ∈ g.pixels) ↔ g.rect.memP p) ∧
      g.uvLt = ((g.rect.lt.x : ℚ) / (a.width : ℚ), (g.rect.lt.y : ℚ) / (a.height : ℚ)) ∧
      g.uvRb = ((g.rect.rb.x : ℚ) / (a.width : ℚ), (g.rect.rb.y : ℚ) / (a.height : ℚ))) ∧
    a.glyphs.Pairwise
      (fun g₁ g₂ => 0 < g₁.count → 0 < g₂.count → g₁.rect.disjoint g₂.rect) := by
  unfold Ttf.build_atlas at ha
  rw [if_neg (by simp)] at ha
  split at ha
  · exact absurd ha (by simp)
  · rename_i hcheck
    rw [not_or, not_lt, not_lt] at hcheck
    obtain ⟨hawcap, hshcap⟩ := hcheck
    have hfin := Option.some.inj ha
    subst hfin
    have hents : ∀ e ∈ entries, Ttf.SlotWf e ∧
        (0 < e.alpha_channels.length →
          e.size.x + 2 * pad.x ≤ Ttf.atlasWidth pad entries) :=
      fun e he => ⟨hwf e he, fun _ => Ttf.entry_fits pad entries e he (by omega) hawcap⟩
    have hinv := Ttf.storePixels_inv (Ttf.atlasWidth pad entries) pad hpx hpy entries hents
    obtain ⟨hcx, hcy, hlh, hent, hpair⟩ := hinv
    have hhpot : Ttf.storeHeight pad
        (Ttf.storePixels (Ttf.atlasWidth pad entries) pad entries) ≤
        Ttf.pot (Ttf.storeHeight pad
          (Ttf.storePixels (Ttf.atlasWidth pad entries) pad entries)) := by
      apply Ttf.pot_ge
      calc Ttf.storeHeight pad (Ttf.storePixels (Ttf.atlasWidth pad entries) pad entries) ≤
          Ttf.max_size_v := hshcap
      _ ≤ Ttf.intMax := by unfold Ttf.max_size_v Ttf.intMax; norm_num
    constructor
    · intro g hg hcg
      obtain ⟨pe, hpe, hfg⟩ := List.mem_map.mp hg
      subst hfg
      have hc : 0 < pe.count := hcg
      obtain ⟨p1, p2, p3, p4, p5, p6, p7, p8, p9⟩ := hent pe hpe hc
      refine ⟨⟨?_, ?_, ?_, ?_⟩, p4, ?_, rfl, rfl⟩
      · show (1 : Int) ≤ pe.rect.lt.x
        omega
      · show (1 : Int) ≤ pe.rect.lt.y
        omega
      · show pe.rect.rb.x ≤ Ttf.atlasWidth pad entries
        omega
      · show pe.rect.rb.y ≤ Ttf.pot (Ttf.storeHeight pad
          (Ttf.storePixels (Ttf.atlasWidth pad entries) pad entries))
        unfold Ttf.storeHeight at hhpot ⊢
        omega
      · intro p
        show (∃ al, (p, al) ∈ pe.pixels) ↔ pe.rect.memP p
        rw [p6, Ttf.pixelsFor_mem pe.slot pe.rect.lt p5.1 p5.2.1 p]
        unfold Ttf.RectI.memP
        rw [p4]
        simp only [Ivec2.add_x, Ivec2.add_y]
    · exact List.Pairwise.map _ (fun x y hxy hx hy => hxy hx hy) hpair

/-- Witness for C6: two 1×1 glyphs with padding 1 pack into a real
atlas; the theorem's conclusions hold for it. -/
theorem atlas_pack_correct_witness :
    ∃ a : Ttf.AtlasM,
      Ttf.build_atlas true ⟨1, 1⟩ [⟨⟨1, 1⟩, [9]⟩, ⟨⟨1, 1⟩, [8]⟩] = some a ∧
      a.glyphs.Pairwise
        (fun g₁ g₂ => 0 < g₁.count → 0 < g₂.count → g₁.rect.disjoint g₂.rect) := by
  have h0 : (Ttf.build_atlas true ⟨1, 1⟩ [⟨⟨1, 1⟩, [9]⟩, ⟨⟨1, 1⟩, [8]⟩]).isSome = true := by
    decide
  have hwf : ∀ e ∈ [(⟨⟨1, 1⟩, [9]⟩ : Slot), ⟨⟨1, 1⟩, [8]⟩], Ttf.SlotWf e := by
    intro e he
    rcases List.mem_cons.mp he with rfl | he
    · exact ⟨by decide, by decide, Or.inr (by decide)⟩
    · rcases List.mem_cons.mp he with rfl | he
      · exact ⟨by decide, by decide, Or.inr (by decide)⟩
      · exact absurd he (List.not_mem_nil e)
  refine ⟨Option.get _ h0, (Option.some_get h0).symm, ?_⟩
  exact (atlas_pack_correct ⟨1, 1⟩ [⟨⟨1, 1⟩, [9]⟩, ⟨⟨1, 1⟩, [8]⟩] (Option.get _ h0)
    (by decide) (by decide) hwf (Option.some_get h0).symm).2

end Kvf
